import Mathlib

/-!
Verification of the order-resource core of a Shopify REST binding
(`order.go`): the cursor-based pagination walker (`OrderServiceOp.ListAll`)
and the tolerant JSON decoders (`LineItem.UnmarshalJSON`,
`ShippingLines.UnmarshalJSON`).

Modelling conventions:
* JSON values are the inductive `Json`; Go's `encoding/json` decodes JSON
  numbers into `float64`, which we restrict to integral values (`Int`),
  since every number appearing in the specified behaviour is integral and
  float formatting is out of scope.
* A Go `interface{}` holding a decoded JSON value is `Option Json`:
  `none` is a nil interface (field absent or JSON `null` decoded into an
  interface), `some v` a non-nil value.
* A Go slice is `Option (List α)`: `none` is the nil slice, `some l` a
  non-nil slice holding `l`.  `goAppend` models Go's `append`.
* `json.Unmarshal` errors are `Except String`.
* The Go loop in `ListAll` has no bound; we give the recursion explicit
  fuel and return `none` when the fuel runs out (i.e. the Go loop would
  still be running), so every theorem about a terminating run is stated
  via `some`.
-/

namespace GoShopify

/-- A parsed JSON value.  Numbers are restricted to integral values
(Go decodes them to `float64`; non-integral formatting is out of scope). -/
inductive Json where
  | null
  | bool (b : Bool)
  | num (n : Int)
  | str (s : String)
  | arr (elems : List Json)
  | obj (fields : List (String × Json))

/-- Field lookup in a decoded JSON object.  Go's `encoding/json` lets a
later duplicate key overwrite an earlier one, hence the left fold. -/
def lookupField (fields : List (String × Json)) (key : String) : Option Json :=
  fields.foldl (fun acc kv => if kv.1 = key then some kv.2 else acc) none

/-- `fmt.Sprintf "%v"` applied to an `interface{}` produced by
`json.Unmarshal`: strings print without quotes, integral numbers in plain
decimal.  (For composite values Go prints `[a b]` / `map[k:v]`; Go sorts
map keys, which we elide since ours arise from single scalar fields.) -/
def fmtV : Json → String
  | .null => "<nil>"
  | .bool true => "true"
  | .bool false => "false"
  | .num n => toString n
  | .str s => s
  | .arr xs => "[" ++ String.intercalate " " (fmtVList xs) ++ "]"
  | .obj fields => "map[" ++ String.intercalate " " (fmtVFields fields) ++ "]"
where
  fmtVList : List Json → List String
    | [] => []
    | x :: xs => fmtV x :: fmtVList xs
  fmtVFields : List (String × Json) → List String
    | [] => []
    | (k, v) :: xs => (k ++ ":" ++ fmtV v) :: fmtVFields xs

/-- Decoding a JSON value into a Go `uint64` field (`Id uint64`):
absent or `null` leaves the zero value, a non-negative number decodes,
anything else is an unmarshal type error. -/
def decodeUint64 : Option Json → Except String Nat
  | none => .ok 0
  | some .null => .ok 0
  | some (.num n) =>
      if n < 0 then .error "json: cannot unmarshal number into field of type uint64"
      else .ok n.toNat
  | some _ => .error "json: cannot unmarshal value into field of type uint64"

/-- Decoding a JSON value into a Go `int` field (`Quantity int`). -/
def decodeInt : Option Json → Except String Int
  | none => .ok 0
  | some .null => .ok 0
  | some (.num n) => .ok n
  | some _ => .error "json: cannot unmarshal value into field of type int"

/-- Decoding a JSON value into a Go `string` field. -/
def decodeString : Option Json → Except String String
  | none => .ok ""
  | some .null => .ok ""
  | some (.str s) => .ok s
  | some _ => .error "json: cannot unmarshal value into field of type string"

/-- `NoteAttribute` from `order.go`: `Name string`, `Value interface{}`. -/
structure NoteAttribute where
  Name : String
  Value : Option Json

/-- `json.Unmarshal` into a `NoteAttribute`: JSON `null` is a no-op
(leaving the zero value), an object decodes its `name` (a string) and
`value` (any JSON value, `null` leaving the interface nil), and any other
shape is an unmarshal type error. -/
def decodeNoteAttribute : Json → Except String NoteAttribute
  | .null => .ok ⟨"", none⟩
  | .obj fields => do
      let name ←
        (match lookupField fields "name" with
          | none => .ok ""
          | some .null => .ok ""
          | some (.str s) => .ok s
          | some _ =>
              .error "json: cannot unmarshal value into struct field NoteAttribute.name of type string")
      let value :=
        (match lookupField fields "value" with
          | none => none
          | some .null => none
          | some v => some v)
      .ok ⟨name, value⟩
  | _ => .error "json: cannot unmarshal value into value of type NoteAttribute"

/-- `json.Unmarshal` into `[]NoteAttribute`: every element of the JSON
array must itself decode as a `NoteAttribute`, in order. -/
def decodeNoteAttributeList : List Json → Except String (List NoteAttribute)
  | [] => .ok []
  | x :: xs => do
      let p ← decodeNoteAttribute x
      let ps ← decodeNoteAttributeList xs
      .ok (p :: ps)

/-- `LineItem` from `order.go`, restricted to a representative subset of
its fixed-shape fields (`Id uint64`, `Title string`, `Quantity int`) plus
the ambiguous `Properties []NoteAttribute` field the custom decoder
normalizes.  The Go nil slice and the empty slice are observationally
identical for `Properties` (the code only ever length-tests it and
`omitempty` drops both), so both are `[]`. -/
structure LineItem where
  Id : Nat
  Title : String
  Quantity : Int
  Properties : List NoteAttribute

/-- The branch of `LineItem.UnmarshalJSON` that resolves the raw
`properties` field (`aux.Properties json.RawMessage`):
`none` models a raw message of length 0 (field absent);
a first byte `'['` — i.e. a parsed array — decodes as `[]NoteAttribute`;
anything else decodes as a single `NoteAttribute`, and a pair with empty
`Name` and nil `Value` collapses to no properties. -/
def resolveProperties : Option Json → Except String (List NoteAttribute)
  | none => .ok []
  | some (.arr xs) => decodeNoteAttributeList xs
  | some pj => do
      let p ← decodeNoteAttribute pj
      if p.Name = "" ∧ p.Value.isNone then .ok []
      else .ok [p]

/-- `LineItem.UnmarshalJSON`: the alias decode of the fixed-shape fields
(any error surfacing immediately), then the two-pass resolution of the
raw `properties` field. -/
def lineItemUnmarshalJSON : Json → Except String LineItem
  | .null => .ok ⟨0, "", 0, []⟩
  | .obj fields => do
      let id ← decodeUint64 (lookupField fields "id")
      let title ← decodeString (lookupField fields "title")
      let quantity ← decodeInt (lookupField fields "quantity")
      let ps ← resolveProperties (lookupField fields "properties")
      .ok ⟨id, title, quantity, ps⟩
  | _ => .error "json: cannot unmarshal value into value of type LineItem"

/-- `json.Marshal` of a `NoteAttribute` (standard struct marshalling with
`omitempty` on both fields; an interface field is empty iff nil). -/
def noteAttributeMarshalJSON (p : NoteAttribute) : Json :=
  .obj ((if p.Name = "" then [] else [("name", .str p.Name)]) ++
        (match p.Value with
          | none => []
          | some v => [("value", v)]))

/-- `json.Marshal` of a `LineItem` (standard struct marshalling; every
modelled field carries `omitempty`, so zero values are dropped — in
particular an empty or nil `Properties` slice emits no `properties`
key at all). -/
def lineItemMarshalJSON (li : LineItem) : Json :=
  .obj ((if li.Id = 0 then [] else [("id", .num (li.Id : Int))]) ++
        (if li.Title = "" then [] else [("title", .str li.Title)]) ++
        (if li.Quantity = 0 then [] else [("quantity", .num li.Quantity)]) ++
        (if li.Properties.isEmpty then []
         else [("properties", .arr (li.Properties.map noteAttributeMarshalJSON))]))

/-- `ShippingLines` from `order.go`, restricted to a representative
subset (`Id uint64`, `Title string`) plus the ambiguous
`RequestedFulfillmentServiceId string` field its custom decoder
normalizes. -/
structure ShippingLines where
  Id : Nat
  Title : String
  RequestedFulfillmentServiceId : String

/-- `ShippingLines.UnmarshalJSON`: the alias decode of the fixed-shape
fields, with `requested_fulfillment_service_id` shadowed as an
`interface{}`; a nil interface (absent field or JSON `null`) yields `""`,
anything else `fmt.Sprintf "%v"` of the decoded value. -/
def shippingLinesUnmarshalJSON : Json → Except String ShippingLines
  | .null => .ok ⟨0, "", ""⟩
  | .obj fields => do
      let id ← decodeUint64 (lookupField fields "id")
      let title ← decodeString (lookupField fields "title")
      let rid :=
        (match lookupField fields "requested_fulfillment_service_id" with
          | none => ""
          | some .null => ""
          | some v => fmtV v)
      .ok ⟨id, title, rid⟩
  | _ => .error "json: cannot unmarshal value into value of type ShippingLines"

/-- Go's `append` on a slice modelled as `Option (List α)` (`none` = nil
slice): appending nothing returns the slice unchanged (nil stays nil,
non-nil stays non-nil); appending to nil allocates a fresh non-nil
slice. -/
def goAppend {α : Type _} : Option (List α) → List α → Option (List α)
  | none, [] => none
  | none, x :: xs => some (x :: xs)
  | some l, xs => some (l ++ xs)

/-- One result of `ListWithPagination`: either records plus the optional
`pagination.NextPageOptions`, or an error. -/
abbrev FetchResult (Rec Opt Err : Type _) := Except Err (List Rec × Option Opt)

/-- The loop body of `OrderServiceOp.ListAll`, with explicit fuel
(`none` = the Go `for` loop is still running after `fuel` iterations):
fetch a page with the current options; on error return the collector so
far together with the error; otherwise append the page's records and
either stop (no next-page options) or continue with the server-provided
options. -/
def listAllLoop {Rec Opt Err : Type _} (fetch : Opt → FetchResult Rec Opt Err) :
    Nat → Opt → Option (List Rec) → Option (Option (List Rec) × Option Err)
  | 0, _, _ => none
  | fuel + 1, options, collector =>
      match fetch options with
      | .error e => some (collector, some e)
      | .ok (entities, pagination) =>
          let collector := goAppend collector entities
          match pagination with
          | none => some (collector, none)
          | some next => listAllLoop fetch fuel next collector

/-- `OrderServiceOp.ListAll`: start from the freshly allocated non-nil
empty collector `[]Order{}` and run the pagination loop. -/
def listAll {Rec Opt Err : Type _} (fetch : Opt → FetchResult Rec Opt Err)
    (fuel : Nat) (options : Opt) : Option (Option (List Rec) × Option Err) :=
  listAllLoop fetch fuel options (some [])

/-! ### Pagination walker lemmas -/

lemma listAllLoop_succ {Rec Opt Err : Type _} (fetch : Opt → FetchResult Rec Opt Err)
    (fuel : Nat) (options : Opt) (collector : Option (List Rec)) :
    listAllLoop fetch (fuel + 1) options collector =
      match fetch options with
      | .error e => some (collector, some e)
      | .ok (entities, pagination) =>
          match pagination with
          | none => some (goAppend collector entities, none)
          | some next => listAllLoop fetch fuel next (goAppend collector entities) := rfl

lemma listAllLoop_chain {Rec Opt Err : Type _} (fetch : Opt → FetchResult Rec Opt Err) :
    ∀ (N : Nat) (opts : Nat → Opt) (pages : Nat → List Rec) (l : List Rec),
      0 < N →
      (∀ i, i < N →
        fetch (opts i) = .ok (pages i, if i + 1 < N then some (opts (i + 1)) else none)) →
      listAllLoop fetch N (opts 0) (some l) =
        some (some (l ++ (List.range N).flatMap pages), none) := by
  intro N
  induction N with
  | zero => intro opts pages l h _; exact absurd h (lt_irrefl 0)
  | succ M ih =>
    intro opts pages l _ hfetch
    have h0 := hfetch 0 (Nat.succ_pos M)
    by_cases hM : M = 0
    · subst hM
      rw [if_neg (by omega)] at h0
      rw [listAllLoop_succ, h0]
      dsimp only [goAppend]
      simp [List.range_succ]
    · have hM1 : 0 < M := Nat.pos_of_ne_zero hM
      rw [if_pos (by omega)] at h0
      have hshift : ∀ i, i < M →
          fetch (opts (i + 1)) =
            .ok (pages (i + 1), if i + 1 < M then some (opts (i + 1 + 1)) else none) := by
        intro i hi
        have h := hfetch (i + 1) (by omega)
        by_cases hc : i + 1 < M
        · rw [if_pos (by omega)] at h
          rw [if_pos hc]
          exact h
        · rw [if_neg (by omega)] at h
          rw [if_neg hc]
          exact h
      have hrec := ih (fun i => opts (i + 1)) (fun i => pages (i + 1)) (l ++ pages 0) hM1 hshift
      dsimp only at hrec
      rw [listAllLoop_succ, h0]
      dsimp only [goAppend]
      rw [hrec]
      rw [List.range_succ_eq_map]
      simp [List.flatMap_map, List.append_assoc, Function.comp]

lemma listAllLoop_err_chain {Rec Opt Err : Type _} (fetch : Opt → FetchResult Rec Opt Err) :
    ∀ (K : Nat) (opts : Nat → Opt) (pages : Nat → List Rec) (l : List Rec) (e : Err),
      (∀ i, i < K → fetch (opts i) = .ok (pages i, some (opts (i + 1)))) →
      fetch (opts K) = .error e →
      listAllLoop fetch (K + 1) (opts 0) (some l) =
        some (some (l ++ (List.range K).flatMap pages), some e) := by
  intro K
  induction K with
  | zero =>
    intro opts pages l e _ herr
    rw [listAllLoop_succ, herr]
    simp
  | succ M ih =>
    intro opts pages l e hfetch herr
    have h0 := hfetch 0 (Nat.succ_pos M)
    have hrec := ih (fun i => opts (i + 1)) (fun i => pages (i + 1)) (l ++ pages 0) e
      (fun i hi => hfetch (i + 1) (by omega)) herr
    dsimp only at hrec
    rw [listAllLoop_succ, h0]
    dsimp only [goAppend]
    rw [hrec]
    rw [List.range_succ_eq_map]
    simp [List.flatMap_map, List.append_assoc, Function.comp]

lemma listAllLoop_some_acc {Rec Opt Err : Type _} (fetch : Opt → FetchResult Rec Opt Err) :
    ∀ (fuel : Nat) (options : Opt) (l : List Rec) (res : Option (List Rec) × Option Err),
      listAllLoop fetch fuel options (some l) = some res → ∃ m, res.1 = some m := by
  intro fuel
  induction fuel with
  | zero => intro options l res h; exact absurd h (by simp [listAllLoop])
  | succ M ih =>
    intro options l res h
    simp only [listAllLoop] at h
    cases hf : fetch options with
    | error e =>
      rw [hf] at h
      cases h
      exact ⟨l, rfl⟩
    | ok page =>
      obtain ⟨entities, pagination⟩ := page
      rw [hf] at h
      cases pagination with
      | none =>
        simp only [goAppend] at h
        cases h
        exact ⟨l ++ entities, rfl⟩
      | some next =>
        simp only [goAppend] at h
        exact ih next (l ++ entities) res h

/-- C1: for every chain of `N` successful page fetches — page `i` fetched
with `opts i` yielding records `pages i` and next-page options `opts
(i+1)`, the final page yielding no next-page options — `ListAll` starting
from `opts 0` returns exactly the concatenation of all pages' records in
page order, with no error.  The hypothesis constrains the fetch
collaborator only at `opts 0 .. opts (N-1)`, i.e. the walker passes the
initial options to the first fetch and each previous page's next-page
options to every later fetch. -/
theorem listAll_enumerates_all_pages {Rec Opt Err : Type _}
    (fetch : Opt → FetchResult Rec Opt Err)
    (opts : Nat → Opt) (pages : Nat → List Rec) (N : Nat)
    (hN : 0 < N)
    (hfetch : ∀ i, i < N →
      fetch (opts i) = .ok (pages i, if i + 1 < N then some (opts (i + 1)) else none)) :
    listAll fetch N (opts 0) = some (some ((List.range N).flatMap pages), none) := by
  have h := listAllLoop_chain fetch N opts pages [] hN hfetch
  simpa [listAll] using h

/-- Witness for C1: three one-record pages, cursor chain `0 → 1 → 2`,
page 2 final; `ListAll` returns `[0, 1, 2]` and no error. -/
theorem listAll_enumerates_all_pages_witness :
    listAll (fun i => (Except.ok ([i], if i + 1 < 3 then some (i + 1) else none) :
        FetchResult Nat Nat String)) 3 0 = some (some [0, 1, 2], none) := by
  have h := listAll_enumerates_all_pages
    (fun i => (Except.ok ([i], if i + 1 < 3 then some (i + 1) else none) :
      FetchResult Nat Nat String))
    (fun i => i) (fun i => [i]) 3 (by decide) (fun i _ => rfl)
  simpa using h

/-- C2: if the first `K` fetches succeed (each yielding next-page
options) and the fetch with page `K`'s options returns an error,
`ListAll` returns the records accumulated from the `K` successful pages
together with that error; the run performs exactly `K + 1` fetches
(fuel `K + 1` suffices — no retry or further fetch happens after the
error). -/
theorem listAll_partial_on_error {Rec Opt Err : Type _}
    (fetch : Opt → FetchResult Rec Opt Err)
    (opts : Nat → Opt) (pages : Nat → List Rec) (K : Nat) (e : Err)
    (hfetch : ∀ i, i < K → fetch (opts i) = .ok (pages i, some (opts (i + 1))))
    (herr : fetch (opts K) = .error e) :
    listAll fetch (K + 1) (opts 0) =
      some (some ((List.range K).flatMap pages), some e) := by
  have h := listAllLoop_err_chain fetch K opts pages [] e hfetch herr
  simpa [listAll] using h

/-- Witness for C2: two successful one-record pages then an error on the
third fetch; `ListAll` returns the two records and the error. -/
theorem listAll_partial_on_error_witness :
    listAll (fun i => (if i < 2 then Except.ok ([i], some (i + 1))
        else Except.error "fetch failed" : FetchResult Nat Nat String)) 3 0 =
      some (some [0, 1], some "fetch failed") := by
  have h := listAll_partial_on_error
    (fun i => (if i < 2 then Except.ok ([i], some (i + 1))
      else Except.error "fetch failed" : FetchResult Nat Nat String))
    (fun i => i) (fun i => [i]) 2 "fetch failed"
    (fun i hi => by simp [hi]) (by simp)
  simpa using h

/-- C9: the collector starts as the freshly allocated non-nil empty
slice `[]Order{}` and `append` keeps it non-nil, so whenever the loop
returns, the record slice is non-nil (`some _`); in particular a failure
of the very first fetch returns the non-nil empty slice plus the
error. -/
theorem listAll_collector_never_nil {Rec Opt Err : Type _}
    (fetch : Opt → FetchResult Rec Opt Err) (fuel : Nat) (options : Opt) :
    (∀ res, listAll fetch fuel options = some res → ∃ l, res.1 = some l) ∧
    (∀ e, fetch options = .error e →
      listAll fetch (fuel + 1) options = some (some [], some e)) := by
  constructor
  · intro res h
    exact listAllLoop_some_acc fetch fuel options [] res h
  · intro e he
    simp [listAll, listAllLoop, he]

/-- Witness for C9: a fetch that fails immediately yields the non-nil
empty record slice and the error. -/
theorem listAll_collector_never_nil_witness :
    listAll (fun _ => (Except.error "fetch failed" : FetchResult Nat Nat String)) 1 0 =
      some (some [], some "fetch failed") :=
  (listAll_collector_never_nil
    (fun _ => (Except.error "fetch failed" : FetchResult Nat Nat String)) 0 0).2
    "fetch failed" rfl

/-! ### Except and lookup lemmas -/

lemma ok_bind {α β : Type _} (a : α) (f : α → Except String β) :
    (Except.ok a : Except String α) >>= f = f a := rfl

lemma error_bind {α β : Type _} (e : String) (f : α → Except String β) :
    (Except.error e : Except String α) >>= f = Except.error e := rfl

lemma except_bind_eq_ok {α β : Type _} {e : Except String α}
    {f : α → Except String β} {b : β} :
    e >>= f = .ok b ↔ ∃ a, e = .ok a ∧ f a = .ok b := by
  cases e with
  | error msg => simp [error_bind]
  | ok a => simp [ok_bind]

lemma lookupField_append (rest : List (String × Json)) (k : String) (v : Json)
    (key : String) :
    lookupField (rest ++ [(k, v)]) key =
      if k = key then some v else lookupField rest key := by
  unfold lookupField
  rw [List.foldl_append]
  by_cases h : k = key <;> simp [h]

/-! ### ShippingLines decoder lemmas -/

lemma shippingLinesUnmarshalJSON_ok_rid (fields : List (String × Json))
    (sl : ShippingLines)
    (hok : shippingLinesUnmarshalJSON (.obj fields) = .ok sl) :
    sl.RequestedFulfillmentServiceId =
      (match lookupField fields "requested_fulfillment_service_id" with
        | none => ""
        | some .null => ""
        | some v => fmtV v) := by
  simp only [shippingLinesUnmarshalJSON] at hok
  rw [except_bind_eq_ok] at hok
  obtain ⟨id, _, hok⟩ := hok
  rw [except_bind_eq_ok] at hok
  obtain ⟨t, _, hok⟩ := hok
  injection hok with h
  subst h
  rfl

/-- C3: the normalization of `requested_fulfillment_service_id` inside a
successful `ShippingLines.UnmarshalJSON`: JSON `null` yields `""`, a JSON
number `n` yields its plain decimal rendering `toString n` (no quotes),
and a JSON string yields its contents verbatim (no surrounding
quotes). -/
theorem shippingLines_rid_normalization (fields : List (String × Json))
    (sl : ShippingLines)
    (hok : shippingLinesUnmarshalJSON (.obj fields) = .ok sl) :
    (lookupField fields "requested_fulfillment_service_id" = some .null →
      sl.RequestedFulfillmentServiceId = "") ∧
    (∀ n : Int, lookupField fields "requested_fulfillment_service_id" = some (.num n) →
      sl.RequestedFulfillmentServiceId = toString n) ∧
    (∀ s, lookupField fields "requested_fulfillment_service_id" = some (.str s) →
      sl.RequestedFulfillmentServiceId = s) := by
  have hrid := shippingLinesUnmarshalJSON_ok_rid fields sl hok
  refine ⟨fun h => ?_, fun n h => ?_, fun s h => ?_⟩ <;> rw [h] at hrid <;> exact hrid

/-- Witness for C3: `null`, `42`, `"abc"` decode to `""`, `"42"`,
`"abc"`. -/
theorem shippingLines_rid_normalization_witness :
    (⟨0, "", "42"⟩ : ShippingLines).RequestedFulfillmentServiceId = "42" ∧
    (⟨0, "", "abc"⟩ : ShippingLines).RequestedFulfillmentServiceId = "abc" ∧
    (⟨0, "", ""⟩ : ShippingLines).RequestedFulfillmentServiceId = "" := by
  refine ⟨?_, ?_, ?_⟩
  · exact ((shippingLines_rid_normalization
      [("requested_fulfillment_service_id", Json.num 42)] ⟨0, "", "42"⟩ rfl).2.1
      42 rfl).trans (by decide)
  · exact (shippingLines_rid_normalization
      [("requested_fulfillment_service_id", Json.str "abc")] ⟨0, "", "abc"⟩ rfl).2.2
      "abc" rfl
  · exact (shippingLines_rid_normalization
      [("requested_fulfillment_service_id", Json.null)] ⟨0, "", ""⟩ rfl).1 rfl

/-- C10: when `requested_fulfillment_service_id` is entirely absent, the
decode result is identical to the decode of the same object with an
explicit `null` for that field, and a successful decode yields `""`. -/
theorem shippingLines_absent_rid (fields : List (String × Json))
    (habs : lookupField fields "requested_fulfillment_service_id" = none) :
    shippingLinesUnmarshalJSON (.obj fields) =
      shippingLinesUnmarshalJSON
        (.obj (fields ++ [("requested_fulfillment_service_id", .null)])) ∧
    ∀ sl, shippingLinesUnmarshalJSON (.obj fields) = .ok sl →
      sl.RequestedFulfillmentServiceId = "" := by
  constructor
  · have h1 : lookupField (fields ++ [("requested_fulfillment_service_id", Json.null)])
        "id" = lookupField fields "id" := by
      rw [lookupField_append]; simp
    have h2 : lookupField (fields ++ [("requested_fulfillment_service_id", Json.null)])
        "title" = lookupField fields "title" := by
      rw [lookupField_append]; simp
    have h3 : lookupField (fields ++ [("requested_fulfillment_service_id", Json.null)])
        "requested_fulfillment_service_id" = some Json.null := by
      rw [lookupField_append]; simp
    simp only [shippingLinesUnmarshalJSON, h1, h2, h3, habs]
  · intro sl hok
    have hrid := shippingLinesUnmarshalJSON_ok_rid fields sl hok
    rw [habs] at hrid
    exact hrid

/-- Witness for C10: an object carrying only `id` decodes identically
with and without an appended explicit `null` identifier field. -/
theorem shippingLines_absent_rid_witness :
    shippingLinesUnmarshalJSON (.obj [("id", Json.num 7)]) =
      shippingLinesUnmarshalJSON (.obj ([("id", Json.num 7)] ++
        [("requested_fulfillment_service_id", Json.null)])) :=
  (shippingLines_absent_rid [("id", Json.num 7)] rfl).1

/-! ### LineItem decoder lemmas -/

lemma lineItemUnmarshalJSON_ok_props (fields : List (String × Json)) (li : LineItem)
    (hok : lineItemUnmarshalJSON (.obj fields) = .ok li) :
    resolveProperties (lookupField fields "properties") = .ok li.Properties := by
  simp only [lineItemUnmarshalJSON] at hok
  rw [except_bind_eq_ok] at hok
  obtain ⟨id, _, hok⟩ := hok
  rw [except_bind_eq_ok] at hok
  obtain ⟨t, _, hok⟩ := hok
  rw [except_bind_eq_ok] at hok
  obtain ⟨q, _, hok⟩ := hok
  rw [except_bind_eq_ok] at hok
  obtain ⟨ps, hps, hok⟩ := hok
  injection hok with h
  subst h
  exact hps

lemma decodeNoteAttribute_not_arr (xs : List Json) (p : NoteAttribute) :
    decodeNoteAttribute (.arr xs) ≠ .ok p := by
  simp [decodeNoteAttribute]

lemma resolveProperties_single (pj : Json) (p : NoteAttribute)
    (hdec : decodeNoteAttribute pj = .ok p)
    (hne : ¬(p.Name = "" ∧ p.Value = none)) :
    resolveProperties (some pj) = .ok [p] := by
  have hne' : ¬(p.Name = "" ∧ p.Value.isNone = true) := by
    simpa [Option.isNone_iff_eq_none] using hne
  cases pj with
  | arr xs => exact absurd hdec (decodeNoteAttribute_not_arr xs p)
  | null =>
    injection hdec with h
    subst h
    exact absurd ⟨rfl, rfl⟩ hne
  | bool b => simp [decodeNoteAttribute] at hdec
  | num n => simp [decodeNoteAttribute] at hdec
  | str s => simp [decodeNoteAttribute] at hdec
  | obj f =>
    show decodeNoteAttribute (.obj f) >>= _ = _
    rw [hdec, ok_bind, if_neg hne']

lemma resolveProperties_arr (xs : List Json) :
    resolveProperties (some (.arr xs)) = decodeNoteAttributeList xs := rfl

/-- C4: inside a successful `LineItem.UnmarshalJSON`, an absent
`properties` field or one holding the empty object `{}` yields an empty
property sequence, and the collapse happens only for the blank pair: a
single-object pair with non-empty name or present value decodes to the
one-element sequence holding exactly that pair. -/
theorem lineItem_empty_properties_collapse (fields : List (String × Json))
    (li : LineItem)
    (hok : lineItemUnmarshalJSON (.obj fields) = .ok li) :
    (lookupField fields "properties" = none → li.Properties = []) ∧
    (lookupField fields "properties" = some (.obj []) → li.Properties = []) ∧
    (∀ pj p, lookupField fields "properties" = some pj →
      decodeNoteAttribute pj = .ok p → ¬(p.Name = "" ∧ p.Value = none) →
      li.Properties = [p]) := by
  have hprops := lineItemUnmarshalJSON_ok_props fields li hok
  refine ⟨fun h => ?_, fun h => ?_, fun pj p h hdec hne => ?_⟩
  · rw [h] at hprops
    injection hprops with h'
    exact h'.symm
  · rw [h] at hprops
    rw [show resolveProperties (some (.obj [])) = .ok [] from rfl] at hprops
    injection hprops with h'
    exact h'.symm
  · rw [h, resolveProperties_single pj p hdec hne] at hprops
    injection hprops with h'
    exact h'.symm

/-- Witness for C4: `{"properties": {}}` collapses to no properties,
while `{"properties": {"name":"a"}}` keeps its single pair. -/
theorem lineItem_empty_properties_collapse_witness :
    (⟨0, "", 0, []⟩ : LineItem).Properties = [] ∧
    (⟨0, "", 0, [⟨"a", none⟩]⟩ : LineItem).Properties = [⟨"a", none⟩] := by
  constructor
  · exact (lineItem_empty_properties_collapse [("properties", Json.obj [])]
      ⟨0, "", 0, []⟩ rfl).2.1 rfl
  · exact (lineItem_empty_properties_collapse
      [("properties", Json.obj [("name", Json.str "a")])]
      ⟨0, "", 0, [⟨"a", none⟩]⟩ rfl).2.2 (Json.obj [("name", Json.str "a")])
      ⟨"a", none⟩ rfl rfl (by simp)

/-- C5: for a non-blank property pair, the single-object form of the
`properties` field decodes to exactly the same `LineItem` as the
one-element array form. -/
theorem lineItem_object_array_equiv (rest : List (String × Json)) (pj : Json)
    (p : NoteAttribute)
    (hdec : decodeNoteAttribute pj = .ok p)
    (hne : ¬(p.Name = "" ∧ p.Value = none)) :
    lineItemUnmarshalJSON (.obj (rest ++ [("properties", pj)])) =
      lineItemUnmarshalJSON (.obj (rest ++ [("properties", .arr [pj])])) := by
  have hid : ∀ v, lookupField (rest ++ [("properties", v)]) "id" =
      lookupField rest "id" := by
    intro v; rw [lookupField_append]; simp
  have htitle : ∀ v, lookupField (rest ++ [("properties", v)]) "title" =
      lookupField rest "title" := by
    intro v; rw [lookupField_append]; simp
  have hq : ∀ v, lookupField (rest ++ [("properties", v)]) "quantity" =
      lookupField rest "quantity" := by
    intro v; rw [lookupField_append]; simp
  have hp : ∀ v : Json, lookupField (rest ++ [("properties", v)]) "properties" =
      some v := by
    intro v; rw [lookupField_append]; simp
  have harr : decodeNoteAttributeList [pj] = .ok [p] := by
    show (decodeNoteAttribute pj >>= fun a =>
      decodeNoteAttributeList [] >>= fun as => Except.ok (a :: as)) = _
    rw [hdec, ok_bind]
    rfl
  simp only [lineItemUnmarshalJSON, hid, htitle, hq, hp,
    resolveProperties_single pj p hdec hne, resolveProperties_arr, harr]

/-- Witness for C5: `{"properties": {"name":"a","value":"1"}}` and
`{"properties": [{"name":"a","value":"1"}]}` decode identically. -/
theorem lineItem_object_array_equiv_witness :
    lineItemUnmarshalJSON
        (.obj [("properties", Json.obj [("name", Json.str "a"), ("value", Json.str "1")])]) =
      lineItemUnmarshalJSON
        (.obj [("properties",
          Json.arr [Json.obj [("name", Json.str "a"), ("value", Json.str "1")]])]) := by
  simpa using lineItem_object_array_equiv []
    (Json.obj [("name", Json.str "a"), ("value", Json.str "1")])
    ⟨"a", some (Json.str "1")⟩ rfl (by simp)

/-- C6: when the `properties` field is a JSON array whose elements all
decode as property pairs, a successful `LineItem.UnmarshalJSON` carries
exactly that ordered sequence of pairs. -/
theorem lineItem_array_properties_order (fields : List (String × Json))
    (xs : List Json) (ps : List NoteAttribute) (li : LineItem)
    (hp : lookupField fields "properties" = some (.arr xs))
    (hxs : decodeNoteAttributeList xs = .ok ps)
    (hok : lineItemUnmarshalJSON (.obj fields) = .ok li) :
    li.Properties = ps := by
  have hprops := lineItemUnmarshalJSON_ok_props fields li hok
  rw [hp, resolveProperties_arr, hxs] at hprops
  injection hprops with h
  exact h.symm

/-- Witness for C6: a two-element property array decodes to the same two
pairs in the same order. -/
theorem lineItem_array_properties_order_witness :
    (⟨0, "", 0, [⟨"a", some (Json.str "1")⟩, ⟨"b", none⟩]⟩ : LineItem).Properties =
      [⟨"a", some (Json.str "1")⟩, ⟨"b", none⟩] :=
  lineItem_array_properties_order
    [("properties", Json.arr
      [Json.obj [("name", Json.str "a"), ("value", Json.str "1")],
       Json.obj [("name", Json.str "b")]])]
    [Json.obj [("name", Json.str "a"), ("value", Json.str "1")],
     Json.obj [("name", Json.str "b")]]
    [⟨"a", some (Json.str "1")⟩, ⟨"b", none⟩]
    ⟨0, "", 0, [⟨"a", some (Json.str "1")⟩, ⟨"b", none⟩]⟩
    rfl rfl rfl

lemma resolveProperties_single_error (pj : Json) (e : String)
    (hnotarr : ∀ xs, pj ≠ .arr xs) (herr : decodeNoteAttribute pj = .error e) :
    resolveProperties (some pj) = .error e := by
  cases pj with
  | arr xs => exact absurd rfl (hnotarr xs)
  | null => simp [decodeNoteAttribute] at herr
  | bool b =>
    show decodeNoteAttribute (.bool b) >>= _ = _
    rw [herr, error_bind]
  | num n =>
    show decodeNoteAttribute (.num n) >>= _ = _
    rw [herr, error_bind]
  | str s =>
    show decodeNoteAttribute (.str s) >>= _ = _
    rw [herr, error_bind]
  | obj f =>
    show decodeNoteAttribute (.obj f) >>= _ = _
    rw [herr, error_bind]

lemma lineItemUnmarshalJSON_props_error (fields : List (String × Json)) (e : String)
    (h : resolveProperties (lookupField fields "properties") = .error e) :
    ∃ e', lineItemUnmarshalJSON (.obj fields) = .error e' := by
  simp only [lineItemUnmarshalJSON]
  cases h1 : decodeUint64 (lookupField fields "id") with
  | error e1 => exact ⟨e1, by simp only [h1, error_bind]⟩
  | ok a =>
    cases h2 : decodeString (lookupField fields "title") with
    | error e2 => exact ⟨e2, by simp only [h1, ok_bind, h2, error_bind]⟩
    | ok b =>
      cases h3 : decodeInt (lookupField fields "quantity") with
      | error e3 => exact ⟨e3, by simp only [h1, ok_bind, h2, h3, error_bind]⟩
      | ok c => exact ⟨e, by simp only [h1, ok_bind, h2, h3, h, error_bind]⟩

/-- C7: decode failures surface to the caller of
`LineItem.UnmarshalJSON` and are never silently defaulted: an error from
the first-stage alias decode is returned unchanged, and a `properties`
value that is neither a decodable property array nor a decodable single
property pair (including JSON `null`, which decodes as the blank pair)
makes the whole decode return an error. -/
theorem lineItem_decode_error_surfaces (fields : List (String × Json)) :
    (∀ e, decodeUint64 (lookupField fields "id") = .error e →
      lineItemUnmarshalJSON (.obj fields) = .error e) ∧
    (∀ pj e, lookupField fields "properties" = some pj →
      (∀ xs, pj ≠ .arr xs) → decodeNoteAttribute pj = .error e →
      ∃ e', lineItemUnmarshalJSON (.obj fields) = .error e') ∧
    (∀ xs e, lookupField fields "properties" = some (.arr xs) →
      decodeNoteAttributeList xs = .error e →
      ∃ e', lineItemUnmarshalJSON (.obj fields) = .error e') := by
  refine ⟨fun e h => ?_, fun pj e hp hnotarr herr => ?_, fun xs e hp herr => ?_⟩
  · simp only [lineItemUnmarshalJSON, h, error_bind]
  · exact lineItemUnmarshalJSON_props_error fields e
      (by rw [hp, resolveProperties_single_error pj e hnotarr herr])
  · exact lineItemUnmarshalJSON_props_error fields e
      (by rw [hp, resolveProperties_arr, herr])

/-- Witness for C7: `{"properties": 3}` — a shape that is neither a
property array nor a property object — fails to decode. -/
theorem lineItem_decode_error_surfaces_witness :
    ∃ e', lineItemUnmarshalJSON (.obj [("properties", Json.num 3)]) = .error e' :=
  (lineItem_decode_error_surfaces [("properties", Json.num 3)]).2.1
    (Json.num 3) "json: cannot unmarshal value into value of type NoteAttribute"
    rfl (fun _ h => Json.noConfusion h) rfl

lemma decodeUint64_natCast (n : Nat) :
    decodeUint64 (some (.num (n : Int))) = .ok n := by
  have h : ¬((n : Int) < 0) := by omega
  simp [decodeUint64, h]

lemma decodeUint64_none : decodeUint64 none = .ok 0 := rfl

/-- C8: marshalling a `LineItem` whose property sequence is empty (the
`omitempty` tag drops the `properties` key entirely) and unmarshalling
the result reproduces the record exactly — in particular the property
sequence is empty again. -/
theorem lineItem_empty_properties_roundtrip (li : LineItem)
    (h : li.Properties = []) :
    lineItemUnmarshalJSON (lineItemMarshalJSON li) = .ok li := by
  obtain ⟨id, title, q, ps⟩ := li
  simp only at h
  subst h
  by_cases h1 : id = 0 <;> by_cases h2 : title = "" <;> by_cases h3 : q = 0 <;>
    simp [lineItemMarshalJSON, lineItemUnmarshalJSON, lookupField, resolveProperties,
      decodeUint64_natCast, decodeUint64_none, decodeInt, decodeString, h1, h2, h3,
      ok_bind]

/-- Witness for C8: a concrete record with empty properties round-trips
unchanged. -/
theorem lineItem_empty_properties_roundtrip_witness :
    lineItemUnmarshalJSON (lineItemMarshalJSON ⟨5, "x", 2, []⟩) =
      .ok ⟨5, "x", 2, []⟩ :=
  lineItem_empty_properties_roundtrip ⟨5, "x", 2, []⟩ rfl

end GoShopify
